import Mathlib

/-!
Shallow embedding of the `driver` incremental build engine
(crates `query`, `driver`): the red/green query engine
(`src/query/src/query/context.rs`), the typed query cache
(`src/query/src/query/key.rs`), the dependency graph, object store and
persistence layer (`src/query/src/db/mod.rs`, `src/query/src/db/object.rs`),
and the script-host output queue (`src/query/src/js/mod.rs`).

Modelling conventions:
* machine integers are `Nat` (the revision counter `AtomicUsize` only ever
  increments, so wrap-around is irrelevant);
* byte strings are `List Nat`, a 32-byte SHA-256 digest is a `List Nat`
  (well-formedness — length 32, bytes < 256 — is a hypothesis where used);
* the SHA-256 digest function itself is foreign code and is passed as an
  explicit function parameter wherever the source calls it;
* `DashMap`s are association lists (insert replaces the existing entry) or,
  for the color map, plain functions `QueryKey → Option _`;
* fallible code returns `Except Error _`; `panic!`/`unreachable!` sites are
  modelled as dedicated error constructors;
* the evaluator is a fuel-indexed interpreter: fuel exhaustion is the
  distinguished `EngErr.fuel` outcome and every theorem about runs is stated
  on successful (`.ok`) results or at concrete fuel values.
-/

namespace Driver

/-- Raw bytes (`Vec<u8>`). -/
abbrev Bytes := List Nat

/-- A SHA-256 digest (`to_hash/mod.rs`: `pub type Hash = sha2::digest::Output<sha2::Sha256>`),
modelled as its byte list. -/
abbrev Hash := List Nat

/-- Well-formed digest: exactly 32 bytes, each < 256. -/
def HashWF (h : Hash) : Prop := h.length = 32 ∧ ∀ b ∈ h, b < 256

instance (h : Hash) : Decidable (HashWF h) := by
  unfold HashWF
  infer_instance

/-- `db/mod.rs`: `pub enum Color { Green, Red }`. -/
inductive Color where
  | green
  | red
deriving DecidableEq, Repr

/-- `js/value.rs` `RustValue` (script arguments): an opaque scripting value.
Only its decidable equality and hashability matter for keying; it is modelled
by its serialised form. -/
abbrev RustValue := String

/-- `query/key.rs`: the tagged union of all query kinds.
`ReadFile`/`ListDirectory` carry a `PathBuf`, `RunFile` a path plus optional
arguments, `MinifyHtml`/`MarkdownToHtml` an `Object` handle (a digest). -/
inductive QueryKey where
  | readFile (path : String)
  | listDirectory (path : String)
  | runFile (file : String) (args : Option RustValue)
  | minifyHtml (object : Hash)
  | markdownToHtml (object : Hash)
deriving DecidableEq, Repr

/-- `query/key.rs` `QueryKey::is_input`: true for `ReadFile` and
`ListDirectory`, false for the derived kinds. -/
def QueryKey.isInput : QueryKey → Bool
  | .readFile _ => true
  | .listDirectory _ => true
  | .runFile _ _ => false
  | .minifyHtml _ => false
  | .markdownToHtml _ => false

/-- `error/mod.rs`: `pub struct Error(String)` — a cloneable string error. -/
structure Error where
  msg : String
deriving DecidableEq, Repr

/-! ### Association-list helpers (the `DashMap`s of the source) -/

/-- Lookup in an association list (`DashMap::get`). -/
def alGet {κ α : Type} [DecidableEq κ] (k : κ) : List (κ × α) → Option α
  | [] => none
  | (k', v) :: t => if k' = k then some v else alGet k t

/-- Insert/replace in an association list (`DashMap::insert`); replaces the
existing entry for the key in place, otherwise appends. -/
def alInsert {κ α : Type} [DecidableEq κ] (k : κ) (v : α) : List (κ × α) → List (κ × α)
  | [] => [(k, v)]
  | (k', v') :: t => if k' = k then (k, v) :: t else (k', v') :: alInsert k v t

/-! ### Dependency graph (`db/mod.rs` `DepGraph`)

The source stores a `petgraph::DiGraph<QueryKey, ()>` plus an index map
`DashMap<QueryKey, NodeIndex>`.  We keep the node set as the list of
registered keys and the edge set as an ordered list of pairs. -/

structure DepGraph where
  nodes : List QueryKey
  edges : List (QueryKey × QueryKey)
deriving DecidableEq, Repr

namespace DepGraph

def empty : DepGraph := ⟨[], []⟩

/-- `DepGraph::node_for`: looks up the node index for a key, registering the
key as a fresh node when absent. -/
def nodeFor (g : DepGraph) (k : QueryKey) : DepGraph :=
  if k ∈ g.nodes then g else { g with nodes := g.nodes ++ [k] }

/-- `DepGraph::add_dependency(from, to)`: registers both endpoints as nodes
and inserts the edge via `update_edge` (idempotent: an existing edge is left
alone). -/
def addDependency (g : DepGraph) (src dst : QueryKey) : DepGraph :=
  let g := (g.nodeFor src).nodeFor dst
  if (src, dst) ∈ g.edges then g else { g with edges := g.edges ++ [(src, dst)] }

/-- `DepGraph::remove_all_dependencies(from)`: registers `from` as a node
(`node_for` runs first), then drops every edge whose source is `from`. -/
def removeAllDependencies (g : DepGraph) (src : QueryKey) : DepGraph :=
  let g := g.nodeFor src
  { g with edges := g.edges.filter (fun e => e.1 ≠ src) }

/-- `DepGraph::dependencies(key)`: `None` when the key was never registered
as a node, otherwise the targets of its outgoing edges. -/
def dependencies (g : DepGraph) (k : QueryKey) : Option (List QueryKey) :=
  if k ∈ g.nodes then some ((g.edges.filter (fun e => e.1 = k)).map Prod.snd) else none

end DepGraph

/-! ### Object store (`db/object.rs` `Objects`)

`Objects(DashMap<Object, Vec<u8>>)`; an `Object` is a digest.  The digest
function (`sha2::Sha256::digest`) is foreign code and is passed explicitly. -/

/-- The content-addressed store: digest ↦ bytes. -/
abbrev Objects := List (Hash × Bytes)

namespace Objects

def empty : Objects := []

/-- `Objects::store_raw(object, contents)`: insert without re-hashing. -/
def storeRaw (object : Hash) (contents : Bytes) (os : Objects) : Objects :=
  alInsert object contents os

/-- `Objects::store(contents)`: computes the digest, inserts, returns the
handle.  `sha` is the foreign SHA-256 digest function. -/
def store (sha : Bytes → Hash) (os : Objects) (contents : Bytes) : Hash × Objects :=
  (sha contents, storeRaw (sha contents) contents os)

/-- `Objects::get(object)`. -/
def get (os : Objects) (object : Hash) : Option Bytes :=
  alGet object os

end Objects

/-! ### The typed query cache (`query/key.rs` `QueryCache`)

The source holds one `DashMap<T, Output<T>>` per key kind behind a macro;
the per-kind maps are modelled as a single association list keyed by the
tagged `QueryKey`, with values of an abstract output type `V` compared via
the foreign `to_hash`. -/

/-- The cache of all kinds (`QueryCache`). -/
abbrev QueryCache (V : Type) := List (QueryKey × V)

/-- `QueryCache::insert(key, value)`: stores the value, returning
`old.is_none_or(|old| old.to_hash() == hash)` — i.e. `true` when there was
no previous entry or the previous entry has the same hash as the new value,
`false` when a previous entry exists with a different hash. -/
def QueryCache.insert {V : Type} (toHash : V → Hash) (cache : QueryCache V)
    (key : QueryKey) (value : V) : Bool × QueryCache V :=
  let old := alGet key cache
  (match old with
    | none => true
    | some o => toHash o = toHash value,
   alInsert key value cache)

/-- `QueryCache::get(key)`. -/
def QueryCache.get {V : Type} (cache : QueryCache V) (key : QueryKey) : Option V :=
  alGet key cache

/-- `QueryCache::iter_keys()`. -/
def QueryCache.iterKeys {V : Type} (cache : QueryCache V) : List QueryKey :=
  cache.map Prod.fst

/-! ### Color map (`db/mod.rs` `ColorMap`) -/

/-- `ColorMap(DashMap<QueryKey, (Color, usize)>)`, as a function. -/
abbrev ColorMap := QueryKey → Option (Color × Nat)

/-- `ColorMap::mark_green(key, revision)`. -/
def ColorMap.markGreen (m : ColorMap) (key : QueryKey) (revision : Nat) : ColorMap :=
  fun k => if k = key then some (.green, revision) else m k

/-- `ColorMap::mark_red(key, revision)`. -/
def ColorMap.markRed (m : ColorMap) (key : QueryKey) (revision : Nat) : ColorMap :=
  fun k => if k = key then some (.red, revision) else m k

/-! ### Engine state (`db/mod.rs` `Database`, `query/context.rs` `QueryContext`) -/

/-- `Database { colors, revision, cache, objects }`. -/
structure Database (V : Type) where
  colors : ColorMap
  revision : Nat
  cache : QueryCache V
  objects : Objects

/-- The shared mutable state reachable from a `QueryContext`: the `Database`
plus the dependency graph (`Arc<Database>`, `Arc<DepGraph>`). -/
structure EState (V : Type) where
  db : Database V
  graph : DepGraph

def Database.emptyDb {V : Type} : Database V :=
  { colors := fun _ => none, revision := 0, cache := [], objects := [] }

/-! ### Producers (`query/context.rs` trait `Producer`)

A producer is foreign to the engine: it computes the key's output, issuing
sub-queries through the child `QueryContext` it is handed.  It is modelled
as a deterministic interaction tree whose only engine-visible effect is
`fetch` (a `ctx.query` call); the ambient world (filesystem, scripts,
transformers) is baked into the tree.  The `Engine` bundles the producer
table with the foreign `to_hash` on outputs. -/

inductive Task (V : Type) where
  | pure (v : V)
  | fetch (k : QueryKey) (cont : V → Task V)

structure Engine (V : Type) where
  producer : QueryKey → Task V
  toHash : V → Hash

/-- Abnormal outcomes of a run: fuel exhaustion (an artefact of the
embedding), the `panic!("Green query {key} missing value in cache")` at
`context.rs:119`, and the `unreachable!("we just ran the query")` at
`context.rs:161`. -/
inductive EngErr where
  | fuel
  | panicMissingCache (k : QueryKey)
  | panicUnreachable
deriving DecidableEq, Repr

/-! #### `try_mark_green` (`context.rs:128-173`)

`try_mark_green` is a plain (non-`async`) `fn`.  At `context.rs:149` it
contains `let _ = self.query(dep.clone());` where `query` is an `async fn`
(`context.rs:77`): the call builds a future and immediately drops it without
polling, so the sub-query never executes and has no effect on the state.
The line is therefore modelled as a no-op, and the subsequent re-inspection
of `colors.get(&dep)` sees the unchanged color map.  (The pre-`async`
revision of the engine, `src/query/src/query_context.rs:94`, executed the
query at this point.)

The recursion `try_mark_green`/dep-loop is packaged as one fuel-indexed
function over a request sum so that it is structural (and hence reducible by
the kernel); the producer table is not needed because the dropped future
never runs a producer. -/

inductive TmgReq (V : Type) where
  /-- a `try_mark_green(key)` call -/
  | one (st : EState V) (key : QueryKey)
  /-- the `for dep in deps` loop, with the remaining deps -/
  | colorLoop (st : EState V) (deps : List QueryKey)

def tmgRun {V : Type} : Nat → TmgReq V → Except EngErr (Color × EState V)
  | 0, _ => .error .fuel
  | fuel + 1, .one st key =>
    let revision := st.db.revision
    match st.graph.dependencies key with
    | none => .ok (.red, st)
    | some deps =>
      match tmgRun fuel (.colorLoop st deps) with
      | .error e => .error e
      | .ok (.red, st') => .ok (.red, st')
      | .ok (.green, st') =>
        .ok (.green, { st' with db := { st'.db with colors := st'.db.colors.markGreen key revision } })
  | _ + 1, .colorLoop st [] => .ok (.green, st)
  | fuel + 1, .colorLoop st (dep :: rest) =>
    let revision := st.db.revision
    let fallthrough : Except EngErr (Color × EState V) :=
      -- `if dep.is_input() || self.try_mark_green(dep.clone()) != Color::Green`
      -- (short-circuit: the recursive call is skipped for inputs)
      let step : Except EngErr (Bool × EState V) :=
        if dep.isInput then .ok (true, st)
        else
          match tmgRun fuel (.one st dep) with
          | .error e => .error e
          | .ok (c, st₁) => .ok (decide (c ≠ .green), st₁)
      match step with
      | .error e => .error e
      | .ok (true, st₁) =>
        -- `let _ = self.query(dep.clone());` — the future is dropped unpolled;
        -- no state change.  Then `match self.db.colors.get(&dep)` again:
        match st₁.db.colors dep with
        | some (.green, _) => tmgRun fuel (.colorLoop st₁ rest)
        | some (.red, _) => .ok (.red, st₁)
        | none => .error .panicUnreachable
      | .ok (false, st₁) => tmgRun fuel (.colorLoop st₁ rest)
    match st.db.colors dep with
    | some (.green, rev) =>
      if rev = revision then tmgRun fuel (.colorLoop st rest) else fallthrough
    | some (.red, _) => .ok (.red, st)
    | none => fallthrough

/-! #### `query` / `update_value` / producer runs (`context.rs:77-126`) -/

inductive EngReq (V : Type) where
  /-- a `ctx.query(key)` call; `parent` is `ctx.parent` -/
  | query (parent : Option QueryKey) (st : EState V) (key : QueryKey)
  /-- the `update_value(key)` closure, with the `revision` read at `query` entry -/
  | update (revision : Nat) (st : EState V) (key : QueryKey)
  /-- a producer body running with `parent = Some key` -/
  | taskRun (parent : QueryKey) (st : EState V) (t : Task V)

/-- One fuel-indexed interpreter for the mutually recursive
`query`/`update_value`/producer execution.  Results carry the value, the
final state, and the trace of keys whose producer was invoked (in
invocation order). -/
def engRun {V : Type} (E : Engine V) :
    Nat → EngReq V → Except EngErr (V × EState V × List QueryKey)
  | 0, _ => .error .fuel
  | fuel + 1, .query parent st key =>
    -- `if let Some(parent) = &self.parent { add_dependency(parent, key) }`
    let st := match parent with
      | some p => { st with graph := st.graph.addDependency p key }
      | none => st
    let revision := st.db.revision
    match st.db.colors key with
    | none => engRun E fuel (.update revision st key)
    | some (_, rev) =>
      if key.isInput ∧ rev < revision then engRun E fuel (.update revision st key)
      else
        match tmgRun fuel (.one st key) with
        | .error e => .error e
        | .ok (.green, st') =>
          match QueryCache.get st'.db.cache key with
          | some v => .ok (v, st', [])
          | none => .error (.panicMissingCache key)
        | .ok (.red, st') => engRun E fuel (.update revision st' key)
  | fuel + 1, .update revision st key =>
    -- `remove_all_dependencies(key)`, run the producer with `parent = key`,
    -- `cache.insert`, then mark green on `true` / red on `false`.
    let st₁ : EState V := { st with graph := st.graph.removeAllDependencies key }
    match engRun E fuel (.taskRun key st₁ (E.producer key)) with
    | .error e => .error e
    | .ok (v, st₂, tr) =>
      let (unchanged, cache') := QueryCache.insert E.toHash st₂.db.cache key v
      let colors' :=
        if unchanged then st₂.db.colors.markGreen key revision
        else st₂.db.colors.markRed key revision
      .ok (v, { st₂ with db := { st₂.db with cache := cache', colors := colors' } }, key :: tr)
  | _ + 1, .taskRun _ st (.pure v) => .ok (v, st, [])
  | fuel + 1, .taskRun parent st (.fetch k cont) =>
    match engRun E fuel (.query (some parent) st k) with
    | .error e => .error e
    | .ok (v, st', tr) =>
      match engRun E fuel (.taskRun parent st' (cont v)) with
      | .error e => .error e
      | .ok (v', st'', tr') => .ok (v', st'', tr ++ tr')

/-- `QueryContext::query` (`context.rs:77`). -/
def query {V : Type} (E : Engine V) (fuel : Nat) (parent : Option QueryKey)
    (st : EState V) (key : QueryKey) : Except EngErr (V × EState V × List QueryKey) :=
  engRun E fuel (.query parent st key)

/-- The `update_value` closure (`context.rs:83-102`). -/
def updateValue {V : Type} (E : Engine V) (fuel : Nat) (revision : Nat)
    (st : EState V) (key : QueryKey) : Except EngErr (V × EState V × List QueryKey) :=
  engRun E fuel (.update revision st key)

/-- A producer body run under `parent` (`key.produce(&QueryContext { parent: Some(key), .. })`). -/
def runTask {V : Type} (E : Engine V) (fuel : Nat) (parent : QueryKey)
    (st : EState V) (t : Task V) : Except EngErr (V × EState V × List QueryKey) :=
  engRun E fuel (.taskRun parent st t)

/-- `QueryContext::try_mark_green` (`context.rs:128`). -/
def tryMarkGreen {V : Type} (fuel : Nat) (st : EState V) (key : QueryKey) :
    Except EngErr (Color × EState V) :=
  tmgRun fuel (.one st key)

/-- The value `key`'s producer would return if re-evaluated from scratch
(every transitive sub-query recomputed): the pure denotation of the producer
tree, used to state the spec's invariant 2. -/
def denote {V : Type} (E : Engine V) : Nat → Sum QueryKey (Task V) → Option V
  | 0, _ => none
  | fuel + 1, .inl k => denote E fuel (.inr (E.producer k))
  | _ + 1, .inr (.pure v) => some v
  | fuel + 1, .inr (.fetch k cont) =>
    match denote E fuel (.inl k) with
    | none => none
    | some v => denote E fuel (.inr (cont v))

/-- Re-evaluation of a key from scratch. -/
def reeval {V : Type} (E : Engine V) (fuel : Nat) (k : QueryKey) : Option V :=
  denote E fuel (.inl k)

/-! ### Hex encoding of object filenames

`db/mod.rs` names an object file by `format!("{:x}", hash)` split after two
characters; restore rebuilds the digest with `hex::decode` (which rejects
odd-length input and non-hex digits) and `Hash::from_exact_iter` (which
rejects anything but exactly 32 bytes).  Filenames are modelled as `List
Char`. -/

def hexDigitChar (n : Nat) : Char :=
  if n < 10 then Char.ofNat (48 + n) else Char.ofNat (87 + n)

/-- `format!("{:x}", hash)`: lowercase hex, two characters per byte. -/
def toHex : Bytes → List Char
  | [] => []
  | b :: t => hexDigitChar (b / 16) :: hexDigitChar (b % 16) :: toHex t

/-- The value of one hex digit; `hex::decode` accepts both cases. -/
def hexVal (c : Char) : Option Nat :=
  if 48 ≤ c.toNat ∧ c.toNat ≤ 57 then some (c.toNat - 48)
  else if 97 ≤ c.toNat ∧ c.toNat ≤ 102 then some (c.toNat - 87)
  else if 65 ≤ c.toNat ∧ c.toNat ≤ 70 then some (c.toNat - 55)
  else none

/-- `hex::decode`: fails on odd length or a non-hex character. -/
def fromHex : List Char → Option Bytes
  | [] => some []
  | [_] => none
  | c₁ :: c₂ :: t =>
    match hexVal c₁, hexVal c₂, fromHex t with
    | some hi, some lo, some rest => some ((hi * 16 + lo) :: rest)
    | _, _, _ => none

/-! ### Persistence (`db/mod.rs` `save_to_directory` / `restore_from_directory`)

The cache directory is modelled as the record of what the filesystem holds:
the two `postcard` blobs (a file is `missing`, `corrupt`, or `good v` —
`postcard` round-trips a value it encoded, so a decodable file simply holds
the value), and the `objects/` tree flattened to `(prefix, rest, compressed
contents)` triples (`none` when the `objects` directory itself is absent,
which makes `read_dir` fail).  zstd compression is foreign code: `save`
takes the encoder, `restore` the decoder (which fails on undecodable
input). -/

inductive FileState (α : Type) where
  | missing
  | corrupt
  | good (a : α)

structure SavedDir (V : Type) where
  cacheFile : FileState (QueryCache V)
  depgraphFile : FileState DepGraph
  objectsDir : Option (List (List Char × List Char × Bytes))

/-- `save_to_directory(dir, db, deps)` into a fresh directory: writes
`cache.v1.pc` and `depgraph.v1.pc`, then one compressed file per object
under `objects/XX/YYYY…` (the hex name split after two characters).  No
`objects` directory is created when the store is empty, since
`create_dir_all(object_directory)` only runs inside the per-object loop. -/
def saveToDirectory {V : Type} (compress : Bytes → Bytes) (db : Database V)
    (deps : DepGraph) : SavedDir V :=
  { cacheFile := .good db.cache,
    depgraphFile := .good deps,
    objectsDir :=
      if db.objects.isEmpty then none
      else some (db.objects.map (fun e =>
        ((toHex e.1).take 2, (toHex e.1).drop 2, compress e.2))) }

/-- The object-loading loop of `restore_from_directory`
(`db/mod.rs:179-212`): for each file, decode the hex name
(`format!("{}{}", prefix, rest)`), require exactly 32 bytes, decompress, and
`store_raw` the contents — the digest of the contents is never recomputed. -/
def restoreObjects (decompress : Bytes → Option Bytes) :
    List (List Char × List Char × Bytes) → Objects → Except Error Objects
  | [], acc => .ok acc
  | (pre, rest, zb) :: t, acc =>
    match fromHex (pre ++ rest) with
    | none => .error ⟨"could not decode hex"⟩
    | some bytes =>
      if bytes.length = 32 then
        match decompress zb with
        | none => .error ⟨"could not decompress object"⟩
        | some contents => restoreObjects decompress t (Objects.storeRaw bytes contents acc)
      else .error ⟨"could not convert object filename to hash"⟩

/-- Seeding of the color map at load time (`db/mod.rs:173-176`): every key
of the loaded cache is marked `(Green, 0)`. -/
def seedColors {V : Type} (cache : QueryCache V) : ColorMap :=
  cache.foldl (fun m e => m.markGreen e.1 0) (fun _ => none)

/-- `restore_from_directory(dir)` (`db/mod.rs:158-223`): load the cache and
dep-graph blobs (any missing or undecodable file is an error), seed the
color map green at revision 0, enumerate and load the objects (a missing
`objects` directory is a `read_dir` error), and return the database with
the revision counter at 1. -/
def restoreFromDirectory {V : Type} (decompress : Bytes → Option Bytes)
    (d : SavedDir V) : Except Error (Database V × DepGraph) :=
  match d.cacheFile with
  | .missing => .error ⟨"could not read cache file"⟩
  | .corrupt => .error ⟨"could not decode cache file"⟩
  | .good cache =>
    match d.depgraphFile with
    | .missing => .error ⟨"could not read depgraph file"⟩
    | .corrupt => .error ⟨"could not decode depgraph file"⟩
    | .good depgraph =>
      match d.objectsDir with
      | none => .error ⟨"could not read objects directory"⟩
      | some entries =>
        match restoreObjects decompress entries Objects.empty with
        | .error e => .error e
        | .ok objects =>
          .ok ({ colors := seedColors cache, revision := 1, cache := cache,
                 objects := objects }, depgraph)

/-- Modelled from the spec: `QueryContext::restore_or_default`, which is
called by the driver binary (`src/driver/src/main.rs:24`) but whose body is
not among the sources; §4.7 specifies "Corrupt or missing state degrades to
'empty cache' — never abort", i.e. any restore error falls back to the
`Default` state (empty maps, revision 0). -/
def restoreOrDefault {V : Type} (decompress : Bytes → Option Bytes)
    (d : SavedDir V) : Database V × DepGraph :=
  match restoreFromDirectory decompress d with
  | .ok p => p
  | .error _ => (Database.emptyDb, DepGraph.empty)

/-! ### The script-host output queue (`js/mod.rs`)

`write_output(name, contents)` (`js/mod.rs:263-284`) checks that every
`Component` of the path is `CurDir` or `Normal` and then appends a
`WriteOutput { path, object }` to the task-local output queue via
`push_outputs`. -/

/-- `std::path::Component` (Unix: no `Prefix` components arise). -/
inductive PathComponent where
  | rootDir
  | curDir
  | parentDir
  | normal (s : String)
deriving DecidableEq, Repr

/-- Split a character list at every `/` (the segments between separators,
empty segments included). -/
def splitSlash : List Char → List (List Char)
  | [] => [[]]
  | c :: t =>
    if c = '/' then [] :: splitSlash t
    else
      match splitSlash t with
      | [] => [[c]]
      | s :: rest => (c :: s) :: rest

/-- `Path::components()` on a Unix path: a leading `/` yields `RootDir`,
empty segments are skipped, `..` is `ParentDir`, and `.` is normalised away
except as the first component of a relative path. -/
def pathComponents (s : String) : List PathComponent :=
  let cs := s.data
  let root : Bool := match cs with
    | '/' :: _ => true
    | _ => false
  let segs := (splitSlash cs).filter (fun t => t ≠ [])
  let conv : List (List Char) → List PathComponent :=
    List.filterMap (fun t =>
      if t = ['.'] then none
      else if t = ['.', '.'] then some .parentDir
      else some (.normal (String.mk t)))
  (if root then [PathComponent.rootDir] else []) ++
    match segs with
    | [] => []
    | t :: rest =>
      if t = ['.'] ∧ ¬root then PathComponent.curDir :: conv rest else conv (t :: rest)

/-- `js/mod.rs` `WriteOutput { path, object }`. -/
structure WriteOutput where
  path : String
  object : Hash
deriving DecidableEq, Repr

/-- `matches!(component, Component::CurDir | Component::Normal(_))`. -/
def allowedComponent : PathComponent → Bool
  | .curDir => true
  | .normal _ => true
  | _ => false

/-- `write_output(name, contents)`: rejects any path with a component other
than `.`/normal with a "directory traversal" error, otherwise appends the
output to the current queue (`push_outputs` extends the `output_queue`). -/
def writeOutput (name : String) (object : Hash) (queue : List WriteOutput) :
    Except Error (List WriteOutput) :=
  if (pathComponents name).all allowedComponent then
    .ok (queue ++ [{ path := name, object := object }])
  else
    .error ⟨"directory traversal"⟩

/-! ### Concrete instances used to evaluate the engine at specific inputs

`dKey` is an input key (a `ReadFile`) and `pKey` a derived key (a `RunFile`)
whose producer consumes `dKey`.  `st0` is exactly the state
`restore_from_directory` leaves behind (spec §4.7) when a previous run
cached `dKey ↦ 0` and `pKey ↦ 1` with the edge `pKey → dKey`: both keys
`(Green, 0)` and the revision bumped to 1 — and the file behind `dKey` has
changed since, so `dKey`'s producer now yields 5. -/

def dKey : QueryKey := .readFile "a"

def pKey : QueryKey := .runFile "build.js" none

def E0 : Engine Nat :=
  { producer := fun k =>
      match k with
      | .readFile _ => .pure 5
      | .runFile _ _ => .fetch dKey (fun v => .pure (v + 1))
      | _ => .pure 0,
    toHash := fun n => [n] }

def st0 : EState Nat :=
  { db :=
    { colors := fun k => if k = pKey ∨ k = dKey then some (.green, 0) else none,
      revision := 1,
      cache := [(pKey, 1), (dKey, 0)],
      objects := [] },
    graph := { nodes := [pKey, dKey], edges := [(pKey, dKey)] } }

/-- A database with one cached key and one stored object (32-byte digest). -/
def db1 : Database Nat :=
  { colors := fun _ => none, revision := 7,
    cache := [(QueryKey.readFile "x", 3)],
    objects := [(List.replicate 32 0, [10, 20])] }

def g1 : DepGraph := ⟨[QueryKey.readFile "x"], []⟩

/-- A database whose object store is empty. -/
def db2 : Database Nat :=
  { colors := fun _ => none, revision := 7,
    cache := [(QueryKey.readFile "x", 3)],
    objects := [] }

/-- A saved directory holding one object file named `00/000…0` (the 32-zero-
byte digest) whose contents are the single byte `1`. -/
def badDir : SavedDir Nat :=
  { cacheFile := .good [],
    depgraphFile := .good DepGraph.empty,
    objectsDir := some [(['0', '0'], List.replicate 62 '0', [1])] }

def h0 : Hash := List.replicate 32 0

/-- A concrete digest function under which the contents `[1]` do not hash to
`h0` (as for the real SHA-256, whose value on `[1]` is not the zero digest). -/
def sha0 : Bytes → Hash := fun _ => List.replicate 32 1

/-- A directory whose cache blob is missing. -/
def lostDir : SavedDir Nat :=
  { cacheFile := .missing, depgraphFile := .good DepGraph.empty, objectsDir := none }

/-! ## Supporting lemmas -/

theorem alGet_alInsert_self {κ α : Type} [DecidableEq κ] (k : κ) (v : α)
    (l : List (κ × α)) : alGet k (alInsert k v l) = some v := by
  induction l with
  | nil => simp [alGet, alInsert]
  | cons p t ih =>
    obtain ⟨k', v'⟩ := p
    by_cases h : k' = k <;> simp [alGet, alInsert, h, ih]

theorem alGet_alInsert_ne {κ α : Type} [DecidableEq κ] (k k' : κ) (v : α)
    (l : List (κ × α)) (h : k ≠ k') : alGet k' (alInsert k v l) = alGet k' l := by
  induction l with
  | nil => simp [alGet, alInsert, h]
  | cons p t ih =>
    obtain ⟨k₀, v₀⟩ := p
    by_cases h₀ : k₀ = k
    · subst h₀
      simp [alGet, alInsert, h]
    · simp only [alInsert, if_neg h₀]
      by_cases h₁ : k₀ = k' <;> simp [alGet, h₁, ih]

theorem alInsert_alInsert_same {κ α : Type} [DecidableEq κ] (k : κ) (v : α)
    (l : List (κ × α)) : alInsert k v (alInsert k v l) = alInsert k v l := by
  induction l with
  | nil => simp [alInsert]
  | cons p t ih =>
    obtain ⟨k', v'⟩ := p
    by_cases h : k' = k <;> simp [alInsert, h, ih]

theorem alInsert_of_not_mem {κ α : Type} [DecidableEq κ] (k : κ) (v : α)
    (l : List (κ × α)) (h : k ∉ l.map Prod.fst) :
    alInsert k v l = l ++ [(k, v)] := by
  induction l with
  | nil => simp [alInsert]
  | cons p t ih =>
    obtain ⟨k', v'⟩ := p
    simp only [List.map_cons, List.mem_cons] at h
    push_neg at h
    simp [alInsert, Ne.symm h.1, ih h.2]

namespace DepGraph

theorem mem_nodes_nodeFor (g : DepGraph) (k k' : QueryKey) :
    k' ∈ (g.nodeFor k).nodes ↔ (k' ∈ g.nodes ∨ k' = k) := by
  unfold nodeFor
  by_cases h : k ∈ g.nodes
  · simp only [if_pos h]
    constructor
    · exact Or.inl
    · rintro (h' | rfl) <;> [exact h'; exact h]
  · simp [if_neg h]

theorem edges_nodeFor (g : DepGraph) (k : QueryKey) : (g.nodeFor k).edges = g.edges := by
  unfold nodeFor
  by_cases h : k ∈ g.nodes <;> simp [h]

theorem mem_nodes_addDependency (g : DepGraph) (src dst k : QueryKey) :
    k ∈ (g.addDependency src dst).nodes ↔ (k ∈ g.nodes ∨ k = src ∨ k = dst) := by
  unfold addDependency
  by_cases h : (src, dst) ∈ ((g.nodeFor src).nodeFor dst).edges <;>
    simp [h, mem_nodes_nodeFor, or_assoc]

theorem mem_nodes_removeAllDependencies (g : DepGraph) (src k : QueryKey) :
    k ∈ (g.removeAllDependencies src).nodes ↔ (k ∈ g.nodes ∨ k = src) := by
  unfold removeAllDependencies
  simp [mem_nodes_nodeFor]

theorem dependencies_isSome (g : DepGraph) (k : QueryKey) :
    (g.dependencies k).isSome ↔ k ∈ g.nodes := by
  unfold dependencies
  by_cases h : k ∈ g.nodes <;> simp [h]

end DepGraph

theorem hexVal_hexDigitChar : ∀ n < 16, hexVal (hexDigitChar n) = some n := by decide

theorem fromHex_toHex (bs : Bytes) (h : ∀ b ∈ bs, b < 256) :
    fromHex (toHex bs) = some bs := by
  induction bs with
  | nil => rfl
  | cons b t ih =>
    have hb : b < 256 := h b (List.mem_cons_self b t)
    have ht : ∀ x ∈ t, x < 256 := fun x hx => h x (List.mem_cons_of_mem b hx)
    have h₁ : hexVal (hexDigitChar (b / 16)) = some (b / 16) :=
      hexVal_hexDigitChar _ (Nat.div_lt_of_lt_mul (by omega))
    have h₂ : hexVal (hexDigitChar (b % 16)) = some (b % 16) :=
      hexVal_hexDigitChar _ (Nat.mod_lt _ (by omega))
    have hd : b / 16 * 16 + b % 16 = b := by omega
    simp [toHex, fromHex, h₁, h₂, ih ht, hd]

theorem seedColors_foldl {V : Type} (cache : QueryCache V) (m : ColorMap) (k : QueryKey) :
    (cache.foldl (fun m e => m.markGreen e.1 0) m) k
      = if k ∈ cache.map Prod.fst then some (.green, 0) else m k := by
  induction cache generalizing m with
  | nil => simp
  | cons e t ih =>
    simp only [List.foldl_cons, List.map_cons, List.mem_cons, ih]
    by_cases hk : k ∈ t.map Prod.fst
    · simp [hk]
    · by_cases he : k = e.1 <;> simp [hk, he, ColorMap.markGreen]

theorem seedColors_spec {V : Type} (cache : QueryCache V) (k : QueryKey) :
    seedColors cache k = if k ∈ cache.map Prod.fst then some (.green, 0) else none :=
  seedColors_foldl cache _ k

theorem restoreObjects_get_preserved (dec : Bytes → Option Bytes)
    (t : List (List Char × List Char × Bytes)) (acc res : Objects) (h : Hash)
    (hrun : restoreObjects dec t acc = .ok res)
    (hne : ∀ e ∈ t, fromHex (e.1 ++ e.2.1) ≠ some h) :
    Objects.get res h = Objects.get acc h := by
  induction t generalizing acc with
  | nil =>
    simp only [restoreObjects, Except.ok.injEq] at hrun
    rw [hrun]
  | cons e t ih =>
    obtain ⟨pre, rest, zb⟩ := e
    rcases hfh : fromHex (pre ++ rest) with _ | bytes
    · simp only [restoreObjects, hfh] at hrun
      exact Except.noConfusion hrun
    · simp only [restoreObjects, hfh] at hrun
      by_cases hlen : bytes.length = 32
      · rw [if_pos hlen] at hrun
        rcases hdec : dec zb with _ | contents
        · simp only [hdec] at hrun
          exact Except.noConfusion hrun
        · simp only [hdec] at hrun
          have hbne : bytes ≠ h := by
            intro hcontr
            exact hne (pre, rest, zb) (List.mem_cons_self _ _) (hcontr ▸ hfh)
          calc Objects.get res h
              = Objects.get (Objects.storeRaw bytes contents acc) h :=
                ih _ hrun (fun e he => hne e (List.mem_cons_of_mem _ he))
            _ = Objects.get acc h := alGet_alInsert_ne bytes h contents acc hbne
      · rw [if_neg hlen] at hrun
        exact Except.noConfusion hrun

theorem restoreObjects_mem (dec : Bytes → Option Bytes)
    (entries : List (List Char × List Char × Bytes)) (acc res : Objects)
    (pre rest : List Char) (zb : Bytes)
    (hrun : restoreObjects dec entries acc = .ok res)
    (hmem : (pre, rest, zb) ∈ entries)
    (hnodup : (entries.map (fun e => fromHex (e.1 ++ e.2.1))).Nodup) :
    ∃ h c, fromHex (pre ++ rest) = some h ∧ h.length = 32 ∧ dec zb = some c ∧
      Objects.get res h = some c := by
  induction entries generalizing acc with
  | nil => cases hmem
  | cons e t ih =>
    obtain ⟨p₀, r₀, z₀⟩ := e
    rcases hfh : fromHex (p₀ ++ r₀) with _ | b₀
    · simp only [restoreObjects, hfh] at hrun
      exact Except.noConfusion hrun
    · simp only [restoreObjects, hfh] at hrun
      by_cases hlen : b₀.length = 32
      · rw [if_pos hlen] at hrun
        rcases hdec : dec z₀ with _ | c₀
        · simp only [hdec] at hrun
          exact Except.noConfusion hrun
        · simp only [hdec] at hrun
          rcases List.mem_cons.1 hmem with hhead | htail
          · have hp : pre = p₀ := congrArg Prod.fst hhead
            have hr : rest = r₀ := congrArg (fun x => x.2.1) hhead
            have hz : zb = z₀ := congrArg (fun x => x.2.2) hhead
            subst hp hr hz
            refine ⟨b₀, c₀, hfh, hlen, hdec, ?_⟩
            have hne : ∀ e ∈ t, fromHex (e.1 ++ e.2.1) ≠ some b₀ := by
              intro e he hcontr
              have hmm : some b₀ ∈ t.map (fun e => fromHex (e.1 ++ e.2.1)) := by
                rw [← hcontr]
                exact List.mem_map_of_mem _ he
              have hnc := (List.nodup_cons.1 hnodup).1
              simp only [List.mem_map] at hnc hmm
              obtain ⟨w, hw, hweq⟩ := hmm
              exact hnc ⟨w, hw, by rw [hweq, hfh]⟩
            calc Objects.get res b₀
                = Objects.get (Objects.storeRaw b₀ c₀ acc) b₀ :=
                  restoreObjects_get_preserved dec t _ res b₀ hrun hne
              _ = some c₀ := alGet_alInsert_self b₀ c₀ acc
          · exact ih _ hrun htail (List.nodup_cons.1 hnodup).2
      · rw [if_neg hlen] at hrun
        exact Except.noConfusion hrun

theorem foldl_storeRaw_of_nodup (objects acc : Objects)
    (hnodup : (objects.map Prod.fst).Nodup)
    (hdisj : ∀ e ∈ objects, e.1 ∉ acc.map Prod.fst) :
    objects.foldl (fun a e => Objects.storeRaw e.1 e.2 a) acc = acc ++ objects := by
  induction objects generalizing acc with
  | nil => simp
  | cons e t ih =>
    obtain ⟨h, c⟩ := e
    have hstep : Objects.storeRaw h c acc = acc ++ [(h, c)] :=
      alInsert_of_not_mem h c acc (hdisj (h, c) (List.mem_cons_self _ _))
    have hnodup' := (List.nodup_cons.1 hnodup).2
    have hhead := (List.nodup_cons.1 hnodup).1
    simp only [List.foldl_cons, hstep]
    rw [ih (acc ++ [(h, c)]) hnodup']
    · simp
    · intro e he
      simp only [List.map_append, List.mem_append, List.map_cons, List.map_nil,
        List.mem_singleton, not_or]
      refine ⟨hdisj e (List.mem_cons_of_mem _ he), ?_⟩
      intro hcontr
      have hmm : e.1 ∈ t.map Prod.fst := List.mem_map_of_mem Prod.fst he
      exact hhead (hcontr ▸ hmm)

theorem restoreObjects_saved (compress : Bytes → Bytes) (dec : Bytes → Option Bytes)
    (objects acc : Objects)
    (hzstd : ∀ b, dec (compress b) = some b)
    (hwf : ∀ e ∈ objects, HashWF e.1) :
    restoreObjects dec
        (objects.map fun e => ((toHex e.1).take 2, (toHex e.1).drop 2, compress e.2)) acc
      = .ok (objects.foldl (fun a e => Objects.storeRaw e.1 e.2 a) acc) := by
  induction objects generalizing acc with
  | nil => rfl
  | cons e t ih =>
    obtain ⟨h, c⟩ := e
    have hwfh : HashWF h := hwf (h, c) (List.mem_cons_self _ _)
    have hcat : (toHex h).take 2 ++ (toHex h).drop 2 = toHex h := List.take_append_drop _ _
    have hfh : fromHex ((toHex h).take 2 ++ (toHex h).drop 2) = some h := by
      rw [hcat]
      exact fromHex_toHex h hwfh.2
    simp only [List.map_cons, List.foldl_cons, restoreObjects, hfh, hwfh.1, if_pos, hzstd c]
    exact ih _ (fun e he => hwf e (List.mem_cons_of_mem _ he))

/-! ## Claim theorems -/

/-- C2 counterexample.  The claim states that `QueryCache::insert(k, v)`
returns `true` exactly when the new value differs (under `to_hash`) from the
previous one, and `false` when it hash-equals the previous one or there was
no previous entry.  At the concrete cache `[(dKey, 1)]` with `to_hash n =
[n]`, inserting `2` — whose hash differs from the cached `1`'s — returns
`false`, and inserting into an empty cache returns `true`: the opposite on
both counts (`key.rs:70`: `old.is_none_or(|old| old.to_hash() == hash)`). -/
theorem c2_insert_changed_counterexample :
    ((QueryCache.insert (fun n : Nat => [n]) [(dKey, 1)] dKey 2).1 = false ∧
      (fun n : Nat => [n]) 2 ≠ (fun n : Nat => [n]) 1) ∧
    (QueryCache.insert (fun n : Nat => [n]) ([] : QueryCache Nat) dKey 2).1 = true := by
  refine ⟨⟨?_, ?_⟩, ?_⟩ <;> decide

/-- C2 (amended): `QueryCache::insert(k, v)` stores `v` and returns `true`
exactly when there was no previous entry for `k` or the previous entry
hash-equals `v` under `to_hash`; it returns `false` exactly when a previous
entry exists whose hash differs.  (The caller `update_value` marks Green on
`true` and Red on `false`, so the engine's marking is unaffected by the
inverted convention.) -/
theorem c2_insert_returns_unchanged {V : Type} (toHash : V → Hash)
    (cache : QueryCache V) (key : QueryKey) (value : V) :
    ((QueryCache.insert toHash cache key value).1 = true ↔
      (alGet key cache = none ∨
        ∃ old, alGet key cache = some old ∧ toHash old = toHash value)) ∧
    (QueryCache.insert toHash cache key value).2 = alInsert key value cache := by
  refine ⟨?_, rfl⟩
  rcases hold : alGet key cache with _ | old
  · simp [QueryCache.insert, hold]
  · simp only [QueryCache.insert, hold, decide_eq_true_eq, Option.some.injEq,
      reduceCtorEq, false_or]
    constructor
    · intro h
      exact ⟨old, rfl, h⟩
    · rintro ⟨old', hh, h⟩
      cases hh
      exact h

/-- C8: `write_output(relpath, object)` errors — appending nothing to the
output queue — as soon as `relpath` has any component other than `.` or a
normal component (a `..` parent component, a root component); when every
component is `.` or normal, the pair is appended to the current output
queue (`js/mod.rs:263-284`). -/
theorem c8_write_output_traversal (name : String) (object : Hash)
    (queue : List WriteOutput) :
    ((∃ c ∈ pathComponents name,
        c ≠ PathComponent.curDir ∧ ∀ s, c ≠ PathComponent.normal s) →
      writeOutput name object queue = .error ⟨"directory traversal"⟩) ∧
    ((∀ c ∈ pathComponents name,
        c = PathComponent.curDir ∨ ∃ s, c = PathComponent.normal s) →
      writeOutput name object queue = .ok (queue ++ [{ path := name, object := object }])) := by
  constructor
  · rintro ⟨c, hc, hnc, hns⟩
    have hall : ¬ (pathComponents name).all allowedComponent := by
      intro hall
      have := List.all_eq_true.1 hall c hc
      cases c with
      | curDir => exact hnc rfl
      | normal s => exact hns s rfl
      | rootDir => exact Bool.noConfusion this
      | parentDir => exact Bool.noConfusion this
    simp [writeOutput, hall]
  · intro hok
    have hall : (pathComponents name).all allowedComponent := by
      refine List.all_eq_true.2 (fun c hc => ?_)
      rcases hok c hc with h | ⟨s, h⟩ <;> subst h <;> rfl
    simp [writeOutput, hall]

/-- C8 witness: `write_output("../evil", o)` is rejected with nothing
queued, while `write_output("a.html", o)` queues the pair. -/
theorem c8_write_output_traversal_witness :
    writeOutput "../evil" h0 [] = .error ⟨"directory traversal"⟩ ∧
    writeOutput "a.html" h0 [] = .ok [{ path := "a.html", object := h0 }] := by
  constructor
  · refine (c8_write_output_traversal "../evil" h0 []).1
      ⟨PathComponent.parentDir, ?_, ?_, ?_⟩
    · show PathComponent.parentDir ∈ [PathComponent.parentDir, .normal "evil"]
      exact List.mem_cons_self _ _
    · intro hc
      exact PathComponent.noConfusion hc
    · intro s hc
      exact PathComponent.noConfusion hc
  · refine (c8_write_output_traversal "a.html" h0 []).2 ?_
    intro c hc
    have hc' : c ∈ [PathComponent.normal "a.html"] := hc
    rw [List.mem_singleton] at hc'
    exact Or.inr ⟨"a.html", hc'⟩

/-- C9: `DepGraph::dependencies(k)` is `None` only for keys never passed to
the graph in any role: it is `None` on the empty graph, `add_dependency(u,
v)` registers exactly `u` and `v` as additional nodes, and
`remove_all_dependencies(u)` registers `u`; in particular a key that only
ever appeared as the target of `add_dependency`, or only as the argument of
`remove_all_dependencies`, already answers `Some` (with an empty list when
it has no outgoing edges). -/
theorem c9_dependencies_registration (g : DepGraph) (u v k : QueryKey) :
    (DepGraph.empty.dependencies k = none) ∧
    (((g.addDependency u v).dependencies k).isSome ↔
      ((g.dependencies k).isSome ∨ k = u ∨ k = v)) ∧
    (((g.removeAllDependencies u).dependencies k).isSome ↔
      ((g.dependencies k).isSome ∨ k = u)) ∧
    ((DepGraph.empty.addDependency u v).dependencies v
      = some (if v = u then [v] else [])) ∧
    ((DepGraph.empty.removeAllDependencies u).dependencies u = some []) := by
  refine ⟨rfl, ?_, ?_, ?_, ?_⟩
  · rw [DepGraph.dependencies_isSome, DepGraph.dependencies_isSome,
      DepGraph.mem_nodes_addDependency]
  · rw [DepGraph.dependencies_isSome, DepGraph.dependencies_isSome,
      DepGraph.mem_nodes_removeAllDependencies]
  · by_cases hvu : v = u
    · subst hvu
      simp [DepGraph.empty, DepGraph.addDependency, DepGraph.nodeFor,
        DepGraph.dependencies]
    · simp [DepGraph.empty, DepGraph.addDependency, DepGraph.nodeFor,
        DepGraph.dependencies, hvu, Ne.symm hvu]
  · simp [DepGraph.empty, DepGraph.removeAllDependencies, DepGraph.nodeFor,
      DepGraph.dependencies]

/-- C3: whenever the engine recomputes a key (case A, the `update_value`
closure), the producer runs (the key heads the invocation trace) and the key
is marked, at the revision read at `query` entry, Green exactly when the
newly produced value hash-equals the previously cached value or no value was
cached, Red exactly when a previously cached value exists whose hash
differs (`context.rs:93-99` with `QueryCache::insert`, `key.rs:64-73`);
`st₂` is the state after the producer ran, whose cache holds the previous
value compared against. -/
theorem c3_recompute_marking {V : Type} (E : Engine V) (fuel revision : Nat)
    (st : EState V) (key : QueryKey) (v : V) (st' : EState V) (tr : List QueryKey)
    (h : updateValue E (fuel + 1) revision st key = .ok (v, st', tr)) :
    ∃ st₂ tr₂,
      runTask E fuel key ⟨st.db, st.graph.removeAllDependencies key⟩
          (E.producer key) = .ok (v, st₂, tr₂) ∧
      tr = key :: tr₂ ∧
      QueryCache.get st'.db.cache key = some v ∧
      st'.db.colors key = some
        ((QueryCache.get st₂.db.cache key).elim Color.green
          (fun old => if E.toHash old = E.toHash v then Color.green else Color.red),
         revision) := by
  rw [updateValue] at h
  rw [engRun] at h
  rcases hrun : engRun E fuel
      (.taskRun key { st with graph := st.graph.removeAllDependencies key } (E.producer key))
    with e | ⟨v₂, st₂, tr₂⟩ <;>
    rw [hrun] at h
  · exact Except.noConfusion h
  · simp only [QueryCache.insert, Except.ok.injEq, Prod.mk.injEq] at h
    obtain ⟨hv, hst, htr⟩ := h
    subst hv
    subst htr
    subst hst
    refine ⟨st₂, tr₂, hrun, rfl, ?_, ?_⟩
    · exact alGet_alInsert_self key v₂ st₂.db.cache
    · simp only [QueryCache.get]
      rcases Option.eq_none_or_eq_some (alGet key st₂.db.cache) with hc | ⟨old, hc⟩
      · simp only [hc]
        simp [ColorMap.markGreen]
      · simp only [hc]
        by_cases hh : E.toHash old = E.toHash v₂
        · simp [hh, ColorMap.markGreen]
        · simp [hh, ColorMap.markRed]

/-- C3 witness: recomputing the stale input `dKey` (cached value `0`, new
value `5`, hashes differ) runs the producer and marks it Red at revision 1. -/
theorem c3_recompute_marking_witness :
    ∃ v st' tr, updateValue E0 5 1 st0 dKey = .ok (v, st', tr) ∧
      ∃ st₂ tr₂,
        runTask E0 4 dKey ⟨st0.db, st0.graph.removeAllDependencies dKey⟩
            (E0.producer dKey) = .ok (v, st₂, tr₂) ∧
        tr = dKey :: tr₂ ∧
        QueryCache.get st'.db.cache dKey = some v ∧
        st'.db.colors dKey = some
          ((QueryCache.get st₂.db.cache dKey).elim Color.green
            (fun old => if E0.toHash old = E0.toHash v then Color.green else Color.red),
           1) := by
  have h : updateValue E0 5 1 st0 dKey = .ok (5,
      { db := { colors := ColorMap.markRed st0.db.colors dKey 1, revision := 1,
                cache := alInsert dKey 5 st0.db.cache, objects := [] },
        graph := st0.graph.removeAllDependencies dKey }, [dKey]) := by rfl
  refine ⟨5, _, [dKey], h, ?_⟩
  exact c3_recompute_marking E0 4 1 st0 dKey 5 _ [dKey] h

/-- C4: the claim says a stale input key (revision counter advanced past its
recorded revision) has its producer re-invoked on any query, whether issued
directly or forced while validating a dependent key.  The direct path works
(`context.rs:108-111`), but the forcing path does not: at `context.rs:149`
`try_mark_green` evaluates `let _ = self.query(dep.clone());` where `query`
is an `async fn`, so the future is dropped unpolled and the recompute never
happens; the stale `(Green, 0)` verdict of the input `dKey` is then accepted
by the second `colors.get` match (`context.rs:152-156`).  Concretely, at the
post-restore state `st0` (revision 1, both keys `(Green, 0)`): querying
`dKey` directly recomputes it (producer trace `[dKey]`, marked Red at
revision 1), but querying the dependent `pKey` — which validates via
`try_mark_green` and must force `dKey` — completes with an *empty* producer
trace, leaves `dKey` at `(Green, 0)`, and marks `pKey` `(Green, 1)`. -/
theorem c4_stale_input_not_recomputed_during_validation :
    (dKey.isInput = true ∧ st0.db.colors dKey = some (.green, 0) ∧
      st0.db.revision = 1) ∧
    ((query E0 20 none st0 dKey).map
        (fun r => (r.1, r.2.2, r.2.1.db.colors dKey, QueryCache.get r.2.1.db.cache dKey))
      = .ok (5, [dKey], some (.red, 1), some 5)) ∧
    ((query E0 20 none st0 pKey).map
        (fun r => (r.1, r.2.2, r.2.1.db.colors dKey, r.2.1.db.colors pKey))
      = .ok (1, [], some (.green, 0), some (.green, 1))) :=
  ⟨⟨rfl, rfl, rfl⟩, rfl, rfl⟩

/-- C1: the claim's invariant — `color_map[k] = (Green, r)` implies `cache[k]`
exists and equals what `k`'s producer would return re-evaluated under `r` —
is violated in a reachable state.  `st0` is the state `restore` leaves
(everything `(Green, 0)`, revision 1) after the world changed; querying the
derived key `pKey` marks it `(Green, 1)` — Green at the *current* revision —
while its cache still holds the stale `1`, although re-evaluating its
producer (which reads the changed input `dKey`) yields `6`.  The root cause
is the dropped `self.query(dep)` future at `context.rs:149` (see the C4
theorem), which lets validation accept the stale input. -/
theorem c1_green_cache_reeval_invariant_violated :
    ((query E0 20 none st0 pKey).map
        (fun r => (r.2.1.db.revision, r.2.1.db.colors pKey, QueryCache.get r.2.1.db.cache pKey))
      = .ok (1, some (.green, 1), some 1)) ∧
    reeval E0 20 pKey = some 6 ∧
    (some 1 : Option Nat) ≠ some 6 :=
  ⟨rfl, rfl, by decide⟩

/-- C10: for every byte vector `b`, after `o = Objects::store(b)` the lookup
`get(o)` returns `b`; storing the same bytes again returns the same handle
and leaves the store unchanged; a store only answers at its own digest
(`get h` of the new store agrees with the old store at every `h ≠ o`), and
`get` on the empty store is `None` — so a handle never inserted yields
`None`.  (`sha` is the foreign SHA-256 digest.) -/
theorem c10_objects_store_get (sha : Bytes → Hash) (os : Objects) (b : Bytes) (h : Hash) :
    (Objects.get (Objects.store sha os b).2 (Objects.store sha os b).1 = some b) ∧
    ((Objects.store sha (Objects.store sha os b).2 b).1 = (Objects.store sha os b).1) ∧
    ((Objects.store sha (Objects.store sha os b).2 b).2 = (Objects.store sha os b).2) ∧
    (Objects.get (Objects.store sha os b).2 h
      = if h = sha b then some b else Objects.get os h) ∧
    (Objects.get Objects.empty h = none) := by
  refine ⟨alGet_alInsert_self _ _ _, rfl, ?_, ?_, rfl⟩
  · exact alInsert_alInsert_same (sha b) b os
  · by_cases hh : h = sha b
    · subst hh
      simp [Objects.store, Objects.storeRaw, Objects.get, alGet_alInsert_self]
    · simp only [Objects.store, Objects.storeRaw, Objects.get, if_neg hh]
      exact alGet_alInsert_ne _ _ _ _ (fun hc => hh hc.symm)

/-- C5 counterexample.  The claim quantifies over *every* engine state, but
when the object store is empty `save_to_directory` never creates the
`objects` directory (`create_dir_all(object_directory)` only runs inside the
per-object loop, `db/mod.rs:146`), so `restore_from_directory` fails at
`read_dir(objects_dirname)` (`db/mod.rs:179`) instead of yielding the saved
state: restoring `save(db2)` (cache non-empty, store empty) errors. -/
theorem c5_save_restore_roundtrip_counterexample :
    restoreFromDirectory (fun b => some b) (saveToDirectory (fun b => b) db2 g1)
      = .error ⟨"could not read objects directory"⟩ := rfl

/-- C5 (amended): for every engine state whose object store is *non-empty*
(and well-formed: 32-byte digests without duplicates, which `store`
guarantees), restoring from a fresh directory that `save` wrote with a
lossless compressor yields the same cache contents, the same dependency
graph, and the same object-store contents; the restored color map marks
exactly the keys of the loaded cache `(Green, 0)` and the restored revision
counter is 1.  When the store is empty, restore fails with the `read_dir`
error instead. -/
theorem c5_save_restore_roundtrip {V : Type} (compress : Bytes → Bytes)
    (decompress : Bytes → Option Bytes) (db : Database V) (deps : DepGraph)
    (hzstd : ∀ b, decompress (compress b) = some b)
    (hne : db.objects ≠ [])
    (hwf : ∀ e ∈ db.objects, HashWF e.1)
    (hnodup : (db.objects.map Prod.fst).Nodup) :
    ∃ db', restoreFromDirectory decompress (saveToDirectory compress db deps)
        = .ok (db', deps) ∧
      db'.cache = db.cache ∧
      db'.objects = db.objects ∧
      db'.revision = 1 ∧
      ∀ k, db'.colors k
        = if k ∈ db.cache.map Prod.fst then some (Color.green, 0) else none := by
  have hobj : restoreObjects decompress
      (db.objects.map fun e => ((toHex e.1).take 2, (toHex e.1).drop 2, compress e.2))
      Objects.empty = .ok db.objects := by
    rw [restoreObjects_saved compress decompress db.objects Objects.empty hzstd hwf]
    rw [foldl_storeRaw_of_nodup db.objects Objects.empty hnodup (by simp [Objects.empty])]
    simp [Objects.empty]
  have hempty : db.objects.isEmpty = false := by
    cases hoo : db.objects with
    | nil => exact absurd hoo hne
    | cons e t => rfl
  refine ⟨{ colors := seedColors db.cache, revision := 1, cache := db.cache,
            objects := db.objects }, ?_, rfl, rfl, rfl, ?_⟩
  · simp only [restoreFromDirectory, saveToDirectory, hempty, Bool.false_eq_true,
      if_false, hobj]
  · intro k
    exact seedColors_spec db.cache k

/-- C5 witness: the round trip at the concrete state `db1` (one cached key,
one stored object) with the identity compressor. -/
theorem c5_save_restore_roundtrip_witness :
    ∃ db', restoreFromDirectory (fun b => some b) (saveToDirectory (fun b => b) db1 g1)
        = .ok (db', g1) ∧
      db'.cache = db1.cache ∧
      db'.objects = db1.objects ∧
      db'.revision = 1 ∧
      ∀ k, db'.colors k
        = if k ∈ db1.cache.map Prod.fst then some (Color.green, 0) else none :=
  c5_save_restore_roundtrip (fun b => b) (fun b => some b) db1 g1
    (fun b => rfl) (by decide) (by decide) (by decide)

/-- C6: restore degrades to the empty default state instead of aborting or
surfacing an error.  `restore_from_directory` itself propagates every
failure as a `Result` error (never a panic): a missing or corrupt cache
blob, a missing or corrupt dep-graph blob, or an absent `objects` directory
each yield `Err`; the caller `QueryContext::restore_or_default` (modelled
from the spec, §4.7) catches any such error and returns the `Default`
context — empty cache, empty graph, revision 0. -/
theorem c6_restore_degrades_to_empty {V : Type} (decompress : Bytes → Option Bytes)
    (d : SavedDir V)
    (h : d.cacheFile = FileState.missing ∨ d.cacheFile = FileState.corrupt ∨
      d.depgraphFile = FileState.missing ∨ d.depgraphFile = FileState.corrupt ∨
      d.objectsDir = none) :
    (∃ e, restoreFromDirectory decompress d = .error e) ∧
    restoreOrDefault decompress d = (Database.emptyDb, DepGraph.empty) ∧
    (Database.emptyDb : Database V).cache = [] ∧
    (Database.emptyDb : Database V).revision = 0 := by
  have herr : ∃ e, restoreFromDirectory decompress d = .error e := by
    obtain ⟨cf, df, od⟩ := d
    cases cf with
    | missing => exact ⟨_, rfl⟩
    | corrupt => exact ⟨_, rfl⟩
    | good c =>
      cases df with
      | missing => exact ⟨_, rfl⟩
      | corrupt => exact ⟨_, rfl⟩
      | good g =>
        cases od with
        | none => exact ⟨_, rfl⟩
        | some es =>
          rcases h with h | h | h | h | h <;> exact absurd h (by simp)
  obtain ⟨e, he⟩ := herr
  refine ⟨⟨e, he⟩, ?_, rfl, rfl⟩
  rw [restoreOrDefault, he]

/-- C6 witness: a directory with no cache blob restores to the default
empty state. -/
theorem c6_restore_degrades_to_empty_witness :
    (∃ e, restoreFromDirectory (fun b => some b) lostDir = .error e) ∧
    restoreOrDefault (fun b => some b) lostDir = (Database.emptyDb, DepGraph.empty) ∧
    (Database.emptyDb : Database Nat).cache = [] ∧
    (Database.emptyDb : Database Nat).revision = 0 :=
  c6_restore_degrades_to_empty (fun b => some b) lostDir (Or.inl rfl)

/-- C7 counterexample.  The claim says an object file whose decompressed
contents do not hash to the name-decoded digest is reported as an error and
not inserted.  But the restore loop never recomputes a digest — the
comment at `db/mod.rs:207` says "the data on disk should be trustworthy, no
need to re-do hash" and the contents go straight into `store_raw`.  At the
concrete directory `badDir` — one object file named `00/00…0` (the
zero digest `h0`) holding contents `[1]` — restore succeeds and stores the
mismatched contents under `h0`, although the digest of `[1]` (here the
concrete `sha0`, standing for SHA-256, which likewise does not map `[1]` to
the zero digest) differs from `h0`. -/
theorem c7_restore_hash_mismatch_counterexample :
    ((restoreFromDirectory (fun b => some b) badDir).map
        (fun p => Objects.get p.1.objects h0) = .ok (some [1])) ∧
    sha0 [1] ≠ h0 ∧
    (restoreFromDirectory (fun b => some b) badDir).isOk = true := by
  refine ⟨by rfl, by decide, by rfl⟩

/-- C7 (amended): during restore, an object file whose *name* fails to
decode (non-hex characters, or not exactly 32 bytes) is reported to the
caller as an error, and an undecompressable file likewise; but the
decompressed contents are never re-hashed: every entry that decodes is
inserted into the store keyed by its decoded name regardless of its
contents, so a hash mismatch is silently accepted and `sha256(store[O]) = O`
is not re-established by restore. -/
theorem c7_restore_inserts_without_hash_check {V : Type}
    (decompress : Bytes → Option Bytes) (d : SavedDir V)
    (parts : Database V × DepGraph) (pre rest : List Char) (zb : Bytes)
    (hok : restoreFromDirectory decompress d = .ok parts)
    (hmem : (pre, rest, zb) ∈ d.objectsDir.getD [])
    (hnodup : ((d.objectsDir.getD []).map (fun e => fromHex (e.1 ++ e.2.1))).Nodup) :
    ∃ h c, fromHex (pre ++ rest) = some h ∧ h.length = 32 ∧ decompress zb = some c ∧
      Objects.get parts.1.objects h = some c := by
  obtain ⟨cf, df, od⟩ := d
  cases cf with
  | missing => exact Except.noConfusion hok
  | corrupt => exact Except.noConfusion hok
  | good c =>
    cases df with
    | missing => exact Except.noConfusion hok
    | corrupt => exact Except.noConfusion hok
    | good g =>
      cases od with
      | none => exact Except.noConfusion hok
      | some es =>
        simp only [Option.getD_some] at hmem hnodup
        simp only [restoreFromDirectory] at hok
        rcases hobj : restoreObjects decompress es Objects.empty with e | objects
        · rw [hobj] at hok
          exact Except.noConfusion hok
        · rw [hobj] at hok
          have hparts : parts.1.objects = objects := by
            have := congrArg (fun p => (Prod.fst p).objects)
              (Except.ok.inj hok)
            simpa using this.symm
          rw [hparts]
          exact restoreObjects_mem decompress es Objects.empty objects pre rest zb
            hobj hmem hnodup

/-- C7 amended-claim witness: at the concrete directory `badDir`, the single
entry decodes to the zero digest and its contents `[1]` are inserted under
it unconditionally. -/
theorem c7_restore_inserts_without_hash_check_witness :
    ∃ h c, fromHex (['0', '0'] ++ List.replicate 62 '0') = some h ∧
      h.length = 32 ∧ (fun b : Bytes => some b) [1] = some c ∧
      Objects.get (restoreOrDefault (fun b => some b) badDir).1.objects h = some c := by
  have hok : restoreFromDirectory (fun b : Bytes => some b) badDir
      = .ok (restoreOrDefault (fun b => some b) badDir) := by rfl
  exact c7_restore_inserts_without_hash_check (fun b => some b) badDir _
    (['0', '0']) (List.replicate 62 '0') [1] hok (by decide) (by decide)

end Driver
